import Mathlib

/-!
Verification of the QuantumClip video rendering pipeline.

Shallow embedding of the rendering core:
* `app/services/video_service.py` — transition alias table and normalization,
  subtitle text splitting and subtitle clip construction, the legacy renderer's
  per-scene collection loop and per-boundary random transition selection;
* `app/services/scene_renderer.py` — `render_scene_clip` (duration resolution
  and the scene-clip encode arguments) and `concatenate_scenes_with_ffmpeg`
  (the command it builds for each branch);
* `app/services/video_service_optimized.py` — stage 1 (sequential scene
  rendering), the post-processing ffmpeg command, and the values returned to
  the caller (integer duration, thumbnail handling);
* `app/services/rendering_presets.py` — the preset records and `get_preset`.

Real arithmetic (Python floats) is modelled exactly over `ℚ`; the filesystem
and the audio decoder are modelled as oracles (`FS`); `random.choice` is
modelled by an oracle supplying one natural number per draw.
-/

/-! ## Python string primitives (ASCII semantics of `str.strip`, `str.split`,
`' '.join`, and the sentence-splitting regex `(?<=[.!?。！？])\s+`) -/

/-- Python whitespace test, restricted to the ASCII whitespace characters
`' '`, `'\t'`, `'\n'`, `'\r'`, `'\x0b'`, `'\x0c'`. -/
def pyIsSpace (c : Char) : Bool :=
  c = ' ' || c = '\t' || c = '\n' || c = '\r' || c = '\x0b' || c = '\x0c'

/-- Python `str.strip()` on a character list: drop leading and trailing
whitespace. -/
def stripChars (cs : List Char) : List Char :=
  ((cs.dropWhile pyIsSpace).reverse.dropWhile pyIsSpace).reverse

/-- Worker for Python `str.split()` (no argument): `cur` is the reversed
current word. -/
def wordsAux : List Char → List Char → List (List Char)
  | [], cur => if cur = [] then [] else [cur.reverse]
  | c :: rest, cur =>
    if pyIsSpace c then
      if cur = [] then wordsAux rest [] else cur.reverse :: wordsAux rest []
    else
      wordsAux rest (c :: cur)

/-- Python `s.split()`: split on whitespace runs, dropping empty pieces. -/
def pyWords (cs : List Char) : List (List Char) := wordsAux cs []

/-- Python `' '.join(words)`. -/
def joinSpace : List (List Char) → List Char
  | [] => []
  | [w] => w
  | w :: ws => w ++ ' ' :: joinSpace ws

/-- Sentence-ending punctuation of the regex in `split_subtitle_text`:
`.`, `!`, `?`, `。` (U+3002), `！` (U+FF01), `？` (U+FF1F). -/
def isSentencePunct (c : Char) : Bool :=
  c = '.' || c = '!' || c = '?' || c = '。' || c = '！' || c = '？'

/-- `re.split(r"(?<=[.!?。！？])\s+", s)`: split the text at every maximal
whitespace run whose preceding character is sentence punctuation, consuming
the whitespace.  `cur` is the reversed current piece. -/
def sentAux : List Char → List Char → List (List Char)
  | [], cur => [cur.reverse]
  | c :: rest, cur =>
    if pyIsSpace c && (match cur with | p :: _ => isSentencePunct p | [] => false) then
      cur.reverse :: sentAux (rest.dropWhile pyIsSpace) []
    else
      sentAux rest (c :: cur)
termination_by cs _ => cs.length
decreasing_by
  · simp_wf
    exact Nat.lt_succ_of_le (List.dropWhile_suffix _).length_le
  · simp_wf

/-- The greedy word-packing loop of `split_subtitle_text`: accumulate words
into `current` while the space-joined tentative line fits in `maxChars`;
flush `current` as a chunk when the next word would overflow. -/
def packAux (maxChars : ℕ) : List (List Char) → List (List Char) → List (List Char) →
    List (List Char)
  | [], current, chunks =>
    if current = [] then chunks else chunks ++ [joinSpace current]
  | w :: rest, current, chunks =>
    let tentative := if current = [] then w else joinSpace (current ++ [w])
    if tentative.length > maxChars ∧ current ≠ [] then
      packAux maxChars rest [w] (chunks ++ [joinSpace current])
    else
      packAux maxChars rest (current ++ [w]) chunks

/-- The per-sentence chunking loop of `split_subtitle_text`: strip each
sentence, skip empties, keep sentences within `maxChars` whole, and pack the
words of longer sentences greedily. -/
def buildChunks (maxChars : ℕ) : List (List Char) → List (List Char)
  | [] => []
  | s :: rest =>
    let s' := stripChars s
    if s' = [] then buildChunks maxChars rest
    else if s'.length ≤ maxChars then s' :: buildChunks maxChars rest
    else packAux maxChars (pyWords s') [] [] ++ buildChunks maxChars rest

/-- `split_subtitle_text(text, max_chars=60)` from `video_service.py`:
split into sentences, chunk each sentence to at most 60 characters, and fall
back to `[text.strip()]` when no chunk was produced. -/
def split_subtitle_text (text : String) (maxChars : ℕ := 60) : List String :=
  if text = "" then []
  else
    let chunks := buildChunks maxChars (sentAux (stripChars text.data) [])
    if chunks = [] then [String.mk (stripChars text.data)]
    else chunks.map String.mk

/-! ## Subtitle clip construction (`build_subtitle_clips`) -/

/-- One subtitle overlay clip: its text, its `set_start` time and its
`set_duration` value. -/
structure SubtitleClip where
  text : String
  start : ℚ
  duration : ℚ
  deriving Repr, DecidableEq

/-- Word count used for a segment: `max(len(segment.split()), 1)`. -/
def segWordCount (seg : String) : ℕ := max (pyWords seg.data).length 1

/-- The clip-emitting loop of `build_subtitle_clips`: each segment gets
`duration * word_count / total_words`; the final segment takes the remaining
time instead when that remainder is positive; non-positive durations are
skipped. -/
def clipsAux (T : ℚ) (W : ℕ) : List String → ℚ → List SubtitleClip
  | [], _ => []
  | seg :: rest, elapsed =>
    let wc : ℕ := segWordCount seg
    let segDur0 : ℚ := T * wc / W
    let segDur : ℚ :=
      if rest = [] then (if T - elapsed > 0 then T - elapsed else segDur0)
      else segDur0
    if segDur ≤ 0 then clipsAux T W rest elapsed
    else { text := seg, start := elapsed, duration := segDur } ::
      clipsAux T W rest (elapsed + segDur)

/-- `build_subtitle_clips(text, ..., duration, ...)` from `video_service.py`,
restricted to the timing data (the rendered overlay images are irrelevant to
the tiling claim).  `total_words` is the sum of the raw per-segment word
counts, with `or 1` replacing a zero sum. -/
def build_subtitle_clips (text : String) (duration : ℚ) : List SubtitleClip :=
  let segments := split_subtitle_text text
  if segments = [] then []
  else
    let rawSum := (segments.map (fun seg => (pyWords seg.data).length)).sum
    let totalWords := if rawSum = 0 then 1 else rawSum
    clipsAux duration totalWords segments 0

/-! ## Transition normalization (`video_service.py`) -/

/-- `SUPPORTED_TRANSITIONS` from `video_service.py`. -/
def SUPPORTED_TRANSITIONS : List String :=
  ["none", "crossfade", "fade_black", "fade_white", "flash",
   "slide_left", "slide_right", "slide_up", "slide_down",
   "wipe_left", "wipe_right", "wipe_up", "wipe_down",
   "zoom_in", "zoom_out", "zoom_cross", "pixelate", "random", "mix"]

/-- `TRANSITION_ALIASES` from `video_service.py`, as an association list. -/
def TRANSITION_ALIASES : List (String × String) :=
  [("dissolve", "crossfade"), ("dreamy_dissolve", "crossfade"),
   ("smooth_dissolve", "crossfade"), ("soft_dissolve", "crossfade"),
   ("gentle_dissolve", "crossfade"), ("cinematic_crossfade", "crossfade"),
   ("cinematic_blackout", "fade_black"), ("dip_to_black", "fade_black"),
   ("dramatic_blackout", "fade_black"), ("fade_to_black", "fade_black"),
   ("dip_to_white", "fade_white"), ("fade_to_white", "fade_white"),
   ("flash_white", "flash"), ("flash_light", "flash"),
   ("slide_push_left", "slide_left"), ("push_left", "slide_left"),
   ("parallax_left", "slide_left"), ("slide_push_right", "slide_right"),
   ("push_right", "slide_right"), ("parallax_right", "slide_right"),
   ("slide_push_up", "slide_up"), ("push_up", "slide_up"),
   ("slide_push_down", "slide_down"), ("push_down", "slide_down"),
   ("wipe_soft_left", "wipe_left"), ("wipe_soft_right", "wipe_right"),
   ("wipe_soft_up", "wipe_up"), ("wipe_soft_down", "wipe_down"),
   ("pan_left", "wipe_left"), ("pan_right", "wipe_right"),
   ("pan_up", "wipe_up"), ("pan_down", "wipe_down"),
   ("zoom_in_slow", "zoom_in"), ("zoom_in_fast", "zoom_in"),
   ("zoom_out_slow", "zoom_out"), ("zoom_out_fast", "zoom_out"),
   ("cross_zoom", "zoom_cross"), ("zoom_blur", "zoom_cross"),
   ("pixelate_in", "pixelate"), ("pixelate_out", "pixelate"),
   ("random_mix", "random"), ("mix", "random"),
   ("shuffle", "random"), ("all", "random")]

/-- Python `str.lower()` (ASCII). -/
def pyLower (s : String) : String := String.mk (s.data.map Char.toLower)

/-- `normalize_transition_type(value)` from `video_service.py`:
`None`/empty → `"none"`; otherwise lower-case, map through the alias table
(defaulting to the key itself), and keep the result only if supported. -/
def normalize_transition_type (value : Option String) : String :=
  match value with
  | none => "none"
  | some v =>
    if v = "" then "none"
    else
      let key := pyLower v
      let mapped := ((TRANSITION_ALIASES.lookup key).getD key)
      if mapped ∈ SUPPORTED_TRANSITIONS then mapped else "none"

/-! ## Random transition selection (legacy renderer) -/

/-- `RANDOM_TRANSITION_POOL` from `video_service.py`. -/
def RANDOM_TRANSITION_POOL : List String :=
  ["crossfade", "fade_black", "fade_white", "flash",
   "slide_left", "slide_right", "slide_up", "slide_down",
   "wipe_left", "wipe_right", "wipe_up", "wipe_down",
   "zoom_in", "zoom_out", "zoom_cross", "pixelate"]

/-- `random_transition_pool` as computed inside `render_video`:
the pool filtered to supported transitions. -/
def random_transition_pool : List String :=
  RANDOM_TRANSITION_POOL.filter (· ∈ SUPPORTED_TRANSITIONS)

/-- The selection made at one scene boundary in `render_video`:
for `random`/`mix` the transition is `random.choice(random_transition_pool)`
(modelled by an oracle draw `pick`, reduced modulo the pool size), with
`'crossfade'` as the fallback for an empty pool; otherwise the normalized
transition effect itself is used. -/
def selectBoundaryTransition (transitionEffect : String) (pick : ℕ) : String :=
  if transitionEffect = "random" ∨ transitionEffect = "mix" then
    match random_transition_pool.get? (pick % random_transition_pool.length) with
    | some t => t
    | none => "crossfade"
  else transitionEffect

/-- The transitions selected at the `numScenes - 1` scene boundaries of the
legacy renderer; `pick i` is the oracle draw consumed at boundary `i`. -/
def legacyBoundaryTransitions (transitionEffect : String) (pick : ℕ → ℕ)
    (numScenes : ℕ) : List String :=
  (List.range (numScenes - 1)).map (fun i => selectBoundaryTransition transitionEffect (pick i))

/-! ## Rendering presets (`rendering_presets.py`) -/

/-- `RenderingPreset` dataclass from `rendering_presets.py`. -/
structure RenderingPreset where
  name : String
  description : String
  crf : ℕ
  speedPreset : String
  maxRecommendedResolution : String
  defaultFps : ℕ
  extraArgs : List String
  deriving Repr, DecidableEq

/-- `PRESET_FAST` from `rendering_presets.py`. -/
def PRESET_FAST : RenderingPreset :=
  { name := "fast"
    description := "Fast encoding for quick previews and testing"
    crf := 26
    speedPreset := "veryfast"
    maxRecommendedResolution := "1080p"
    defaultFps := 24
    extraArgs := ["-movflags", "+faststart", "-pix_fmt", "yuv420p"] }

/-- `PRESET_QUALITY` from `rendering_presets.py`. -/
def PRESET_QUALITY : RenderingPreset :=
  { name := "quality"
    description := "High quality encoding for final exports"
    crf := 20
    speedPreset := "medium"
    maxRecommendedResolution := "4K"
    defaultFps := 30
    extraArgs := ["-movflags", "+faststart", "-pix_fmt", "yuv420p", "-profile:v", "high"] }

/-- `PRESETS` map from `rendering_presets.py`. -/
def PRESETS : List (String × RenderingPreset) :=
  [("fast", PRESET_FAST), ("quality", PRESET_QUALITY)]

/-- `DEFAULT_PRESET`: `"fast"` unless overridden by the
`QUANTUMCLIP_DEFAULT_RENDERING_PRESET` environment variable (modelled as
unset). -/
def DEFAULT_PRESET : String := "fast"

/-- `get_preset(preset_name)` from `rendering_presets.py`: default, then
lower-case, then look up; unknown names raise `ValueError`. -/
def get_preset (presetName : Option String) : Except String RenderingPreset :=
  let n := pyLower (presetName.getD DEFAULT_PRESET)
  match PRESETS.lookup n with
  | some p => .ok p
  | none => .error ("Unknown preset: " ++ n)

/-! ## Scene renderer (`scene_renderer.py`) -/

/-- A scene record as consumed by the renderers (`scene.get(...)` fields). -/
structure Scene where
  imageUrl : Option String
  audioUrl : Option String
  text : String
  /-- the declared `"duration"` entry; `none` models an absent key, read via
  `scene.get("duration", 3.0)`. -/
  duration : Option ℚ

/-- Filesystem and decoder oracle: `os.path.exists`, and the duration
`AudioFileClip` reports for a path (`none` models a load failure). -/
structure FS where
  pathExists : String → Bool
  audioDuration : String → Option ℚ

/-- Fuel-based worker for Python `str.replace`: replace every non-overlapping
occurrence of `pat`, scanning left to right.  One character of the subject is
consumed per step, so `fuel = s.length` suffices. -/
def replaceFuel (pat rep : List Char) : ℕ → List Char → List Char
  | 0, s => s
  | _, [] => []
  | fuel + 1, c :: rest =>
    if pat.isPrefixOf (c :: rest) then
      rep ++ replaceFuel pat rep fuel ((c :: rest).drop pat.length)
    else
      c :: replaceFuel pat rep fuel rest

/-- Python `s.replace(pat, rep)` (for the non-empty patterns used by this
code base; an empty pattern leaves `s` unchanged, as `String.replace` does). -/
def pyReplace (s pat rep : String) : String :=
  if pat = "" then s
  else String.mk (replaceFuel pat.data rep.data s.data.length s.data)

/-- The `url.replace("/uploads/", "uploads/")` path resolution used by both
renderers. -/
def replaceUploads (url : String) : String :=
  pyReplace url "/uploads/" "uploads/"

/-- The scene-clip output path chosen by `render_scene_clip`. -/
def sceneClipPath (videoId sceneIndex : ℕ) : String :=
  "uploads/video_" ++ toString videoId ++ "_scene_" ++ toString (sceneIndex + 1) ++ "_clip.mp4"

/-- `render_scene_clip` from `scene_renderer.py`, restricted to its
validation and duration logic: missing `image_url` or a missing image file
raise; a present, existing, loadable audio file overrides the declared
duration (default `3.0`); the returned pair is `(scene_path, duration)`. -/
def render_scene_clip (scene : Scene) (sceneIndex videoId : ℕ) (fs : FS) :
    Except String (String × ℚ) :=
  match scene.imageUrl with
  | none => .error ("Scene " ++ toString (sceneIndex + 1) ++ " missing image_url")
  | some imageUrl =>
    if imageUrl = "" then
      .error ("Scene " ++ toString (sceneIndex + 1) ++ " missing image_url")
    else
      let imagePath := replaceUploads imageUrl
      if fs.pathExists imagePath = false then
        .error ("Image file not found: " ++ imagePath)
      else
        let declared := scene.duration.getD 3
        let duration :=
          match scene.audioUrl with
          | none => declared
          | some audioUrl =>
            let audioPath := replaceUploads audioUrl
            if audioUrl = "" then declared
            else if fs.pathExists audioPath then
              match fs.audioDuration audioPath with
              | some d => d
              | none => declared
            else declared
        .ok (sceneClipPath videoId sceneIndex, duration)

/-- The arguments `render_scene_clip` passes to
`img_clip.write_videofile(...)` when encoding the scene clip. -/
structure WriteVideofileArgs where
  codec : String
  audioCodec : Option String
  speedPreset : String
  bitrate : Option String
  deriving Repr, DecidableEq

/-- The encode settings of the `write_videofile` call in `render_scene_clip`:
`codec='libx264'`, `preset='veryfast'`, `bitrate='4000k'`, with the overall
`RenderingPreset` argument unused by the call. -/
def sceneClipWriteArgs (preset : RenderingPreset) (hasAudio : Bool) :
    WriteVideofileArgs :=
  { codec := "libx264"
    audioCodec := if hasAudio then some "aac" else none
    speedPreset := "veryfast"
    bitrate := some "4000k" }

/-! ## Concatenation stage (`concatenate_scenes_with_ffmpeg`) -/

/-- The ffmpeg command built by `concatenate_scenes_with_ffmpeg`: the
stream-copy concat for `"none"` (or zero-duration crossfade), and the
re-encoding concat with the preset's speed/CRF parameters otherwise.
An empty scene list raises `ValueError`. -/
def concatenate_scenes_with_ffmpeg (scenePaths : List String)
    (outputPath : String) (transitionType : String) (transitionDuration : ℚ)
    (preset : RenderingPreset) : Except String (List String) :=
  if scenePaths = [] then .error "No scene paths provided"
  else
    let transitionEffect := normalize_transition_type (some transitionType)
    let concatFile := pyReplace outputPath ".mp4" "_concat.txt"
    if transitionEffect = "none" ∨ (transitionEffect = "crossfade" ∧ transitionDuration = 0) then
      .ok ["ffmpeg", "-y", "-f", "concat", "-safe", "0", "-i", concatFile,
           "-c", "copy", outputPath]
    else
      .ok ["ffmpeg", "-y", "-f", "concat", "-safe", "0", "-i", concatFile,
           "-c:v", "libx264", "-preset", preset.speedPreset,
           "-crf", toString preset.crf, "-c:a", "aac", "-b:a", "192k", outputPath]

/-! ## Optimized pipeline (`video_service_optimized.py`) -/

/-- Stage 1 of `render_video_optimized`: render every scene sequentially with
`render_scene_clip`; any per-scene exception is logged and re-raised, and an
empty result list raises `ValueError`. -/
def stage1Go (videoId : ℕ) (fs : FS) :
    List Scene → ℕ → List (String × ℚ) → Except String (List (String × ℚ))
  | [], _, acc => .ok acc.reverse
  | scene :: rest, idx, acc =>
    match render_scene_clip scene idx videoId fs with
    | .error e => .error e
    | .ok r => stage1Go videoId fs rest (idx + 1) (r :: acc)

/-- Stage 1 of `render_video_optimized` (see `stage1Go` for the loop body). -/
def optimizedStage1 (scenes : List Scene) (videoId : ℕ) (fs : FS) :
    Except String (List (String × ℚ)) :=
  match stage1Go videoId fs scenes 0 [] with
  | .error e => .error e
  | .ok results =>
    if results = [] then .error "No scenes were successfully rendered"
    else .ok results

/-- The post-processing ffmpeg command built in stage 3 of
`render_video_optimized` (`bgMusicPath`/`overlayPath` are the resolved paths,
present only when the corresponding file exists).  The filter list always
receives a video entry and an audio entry (`copy` filters when music/overlay
are absent), so the `-c copy` branch of the source is reproduced faithfully
as the (unreachable) empty-filter case. -/
def postprocessCmd (tempConcatPath finalVideoPath : String)
    (bgMusicPath overlayPath : Option String) (width height fps : ℕ)
    (preset : RenderingPreset) : List String :=
  let inputs :=
    ["ffmpeg", "-y", "-i", tempConcatPath]
      ++ (match bgMusicPath with
          | some p => ["-stream_loop", "-1", "-i", p]
          | none => [])
      ++ (match overlayPath with
          | some p => ["-stream_loop", "-1", "-i", p]
          | none => [])
  let videoFilters :=
    match overlayPath with
    | some _ =>
      let overlayIdx : ℕ := if bgMusicPath = none then 1 else 2
      ["[" ++ toString overlayIdx ++ ":v]scale=" ++ toString width ++ ":"
         ++ toString height ++ "[ov]",
       "[0:v][ov]overlay=0:0:format=auto[v]"]
    | none => ["[0:v]copy[v]"]
  let audioFilters :=
    match bgMusicPath with
    | some _ =>
      ["[1:a]volume=0.3[bg]",
       "[0:a][bg]amix=inputs=2:duration=first:dropout_transition=2[a]"]
    | none => ["[0:a]copy[a]"]
  let filterParts := videoFilters ++ audioFilters
  let cmd :=
    if filterParts ≠ [] then
      inputs ++ ["-filter_complex", String.intercalate ";" filterParts,
                 "-map", "[v]", "-map", "[a]"]
        ++ ["-c:v", "libx264", "-preset", preset.speedPreset,
            "-crf", toString preset.crf, "-r", toString fps,
            "-c:a", "aac", "-b:a", "192k",
            "-movflags", "+faststart", "-pix_fmt", "yuv420p"]
        ++ preset.extraArgs
    else
      inputs ++ ["-c", "copy"]
  cmd ++ [finalVideoPath]

/-- Python `int(q)`: truncation toward zero. -/
def pyInt (q : ℚ) : ℤ := if 0 ≤ q then ⌊q⌋ else -⌊-q⌋

/-- The `total_duration` value `render_video_optimized` returns:
`int(sum(scene_durations))`. -/
def optimizedTotalDuration (sceneDurations : List ℚ) : ℤ :=
  pyInt sceneDurations.sum

/-- The tail of `render_video_optimized` (stage 4 and the return statement):
thumbnail generation is attempted (`thumbOk = false` models an exception in
`VideoFileClip`/`get_frame`/`save`, which is caught and replaces
`thumbnail_path` with `None`); the returned tuple is
`(video_url, thumbnail_url, total_duration, file_size)`. -/
def optimizedRenderOutput (videoId : ℕ) (thumbOk : Bool)
    (sceneDurations : List ℚ) (fileSize : ℕ) :
    String × Option String × ℤ × ℕ :=
  let thumbnailFilename := "video_" ++ toString videoId ++ "_thumb.jpg"
  let thumbnailPath : Option String :=
    if thumbOk then some ("uploads/" ++ thumbnailFilename) else none
  let totalDuration := optimizedTotalDuration sceneDurations
  let videoUrl := "/uploads/video_" ++ toString videoId ++ "_final.mp4"
  let thumbnailUrl : Option String :=
    match thumbnailPath with
    | some _ => some ("/uploads/" ++ thumbnailFilename)
    | none => none
  (videoUrl, thumbnailUrl, totalDuration, fileSize)

/-! ## Legacy renderer scene-collection loop (`render_video`) -/

/-- One entry of `scene_entries` as built by the legacy renderer's per-scene
loop (the fields the claims need). -/
structure LegacyEntry where
  imagePath : String
  duration : ℚ
  deriving Repr, DecidableEq

/-- The body of the legacy per-scene loop: a scene with no `image_url`, a
missing image file, or any other per-scene exception is logged and skipped
(`continue`); otherwise an entry with the audio-resolved duration is kept. -/
def legacySceneEntry (scene : Scene) (fs : FS) : Option LegacyEntry :=
  match scene.imageUrl with
  | none => none
  | some imageUrl =>
    if imageUrl = "" then none
    else
      let imagePath := replaceUploads imageUrl
      if fs.pathExists imagePath = false then none
      else
        let declared := scene.duration.getD 3
        let duration :=
          match scene.audioUrl with
          | none => declared
          | some audioUrl =>
            let audioPath := replaceUploads audioUrl
            if audioUrl = "" then declared
            else if fs.pathExists audioPath then
              match fs.audioDuration audioPath with
              | some d => d
              | none => declared
            else declared
        some { imagePath := imagePath, duration := duration }

/-- `scene_entries` after the legacy loop: skipped scenes simply do not
contribute. -/
def legacySceneEntries (scenes : List Scene) (fs : FS) : List LegacyEntry :=
  scenes.filterMap (fun s => legacySceneEntry s fs)

/-- The legacy renderer raises (`"No clips generated"`) exactly when no scene
produced an entry. -/
def legacyRenderFailsOnScenes (scenes : List Scene) (fs : FS) : Bool :=
  (legacySceneEntries scenes fs).isEmpty

/-! ## Helper lemmas for the subtitle tiling proof -/

/-- A word produced by `pyWords`: nonempty and whitespace-free. -/
def goodWord (w : List Char) : Prop := w ≠ [] ∧ ∀ c ∈ w, pyIsSpace c = false

lemma wordsAux_good : ∀ (cs cur : List Char), (∀ c ∈ cur, pyIsSpace c = false) →
    ∀ w ∈ wordsAux cs cur, goodWord w := by
  intro cs
  induction cs with
  | nil =>
    intro cur hcur w hw
    by_cases h : cur = []
    · simp [wordsAux, h] at hw
    · simp [wordsAux, h] at hw
      subst hw
      exact ⟨by simpa using h, fun c hc => hcur c (List.mem_reverse.mp hc)⟩
  | cons c rest ih =>
    intro cur hcur w hw
    by_cases hsp : pyIsSpace c
    · by_cases hc : cur = []
      · simp [wordsAux, hsp, hc] at hw
        exact ih [] (by simp) w hw
      · simp [wordsAux, hsp, hc] at hw
        rcases hw with hw | hw
        · subst hw
          exact ⟨by simpa using hc, fun ch hch => hcur ch (List.mem_reverse.mp hch)⟩
        · exact ih [] (by simp) w hw
    · simp [wordsAux, hsp] at hw
      refine ih (c :: cur) ?_ w hw
      intro ch hch
      rcases List.mem_cons.mp hch with h | h
      · subst h; simpa using hsp
      · exact hcur ch h

lemma wordsAux_ne_nil : ∀ (cs cur : List Char),
    ((∃ c ∈ cs, pyIsSpace c = false) ∨ cur ≠ []) → wordsAux cs cur ≠ [] := by
  intro cs
  induction cs with
  | nil =>
    intro cur h
    rcases h with ⟨c, hc, _⟩ | h
    · simp at hc
    · simp [wordsAux, h]
  | cons c rest ih =>
    intro cur h
    by_cases hsp : pyIsSpace c
    · by_cases hc : cur = []
      · simp only [wordsAux, hsp, if_true, hc, if_pos rfl]
        apply ih []
        left
        rcases h with ⟨x, hx, hxf⟩ | hcur
        · rcases List.mem_cons.mp hx with hx | hx
          · subst hx; rw [hsp] at hxf; cases hxf
          · exact ⟨x, hx, hxf⟩
        · exact absurd hc hcur
      · simp [wordsAux, hsp, hc]
    · simp only [wordsAux, hsp, if_false, Bool.false_eq_true]
      exact ih (c :: cur) (Or.inr (by simp))

lemma exists_nonspace_of_dropWhile (l : List Char) :
    l.dropWhile pyIsSpace ≠ [] → ∃ c ∈ l.dropWhile pyIsSpace, pyIsSpace c = false := by
  induction l with
  | nil => intro h; simp at h
  | cons c rest ih =>
    intro h
    by_cases hsp : pyIsSpace c
    · rw [List.dropWhile_cons] at h ⊢
      simp only [hsp, if_true] at h ⊢
      exact ih h
    · rw [List.dropWhile_cons]
      simp only [hsp]
      exact ⟨c, by simp, by simpa using hsp⟩

lemma exists_nonspace_of_stripChars (cs : List Char) (h : stripChars cs ≠ []) :
    ∃ c ∈ stripChars cs, pyIsSpace c = false := by
  unfold stripChars at *
  have h2 : ((cs.dropWhile pyIsSpace).reverse.dropWhile pyIsSpace) ≠ [] := by
    intro hx
    apply h
    rw [hx]
    rfl
  obtain ⟨c, hc, hcf⟩ := exists_nonspace_of_dropWhile _ h2
  exact ⟨c, List.mem_reverse.mpr hc, hcf⟩

lemma exists_nonspace_joinSpace : ∀ (ws : List (List Char)), (∀ w ∈ ws, goodWord w) →
    ws ≠ [] → ∃ c ∈ joinSpace ws, pyIsSpace c = false := by
  intro ws
  induction ws with
  | nil => intro _ h; exact absurd rfl h
  | cons w ws2 _ =>
    intro hgood _
    have hw : goodWord w := hgood w (by simp)
    obtain ⟨c, hc⟩ := List.exists_mem_of_ne_nil w hw.1
    cases ws2 with
    | nil => exact ⟨c, by simpa [joinSpace] using hc, hw.2 c hc⟩
    | cons w2 rest2 =>
      refine ⟨c, ?_, hw.2 c hc⟩
      have hj : joinSpace (w :: w2 :: rest2) = w ++ ' ' :: joinSpace (w2 :: rest2) := rfl
      rw [hj]
      exact List.mem_append_left _ hc

lemma packAux_exists_nonspace (maxChars : ℕ) : ∀ (words current chunks : List (List Char)),
    (∀ w ∈ words, goodWord w) → (∀ w ∈ current, goodWord w) →
    (∀ ch ∈ chunks, ∃ c ∈ ch, pyIsSpace c = false) →
    ∀ ch ∈ packAux maxChars words current chunks, ∃ c ∈ ch, pyIsSpace c = false := by
  intro words
  induction words with
  | nil =>
    intro current chunks _ hc hch ch hmem
    by_cases h : current = []
    · simp only [packAux, h, if_pos rfl] at hmem
      exact hch ch hmem
    · simp only [packAux, if_neg h] at hmem
      rcases List.mem_append.mp hmem with hmem | hmem
      · exact hch ch hmem
      · simp only [List.mem_singleton] at hmem
        subst hmem
        exact exists_nonspace_joinSpace current hc h
  | cons w rest ih =>
    intro current chunks hw hc hch ch hmem
    have hgw : goodWord w := hw w (by simp)
    have hwr : ∀ x ∈ rest, goodWord x := fun x hx => hw x (by simp [hx])
    simp only [packAux] at hmem
    by_cases hcond :
        (if current = [] then w else joinSpace (current ++ [w])).length > maxChars ∧
          current ≠ []
    · rw [if_pos hcond] at hmem
      refine ih [w] (chunks ++ [joinSpace current]) hwr ?_ ?_ ch hmem
      · intro x hx
        simp only [List.mem_singleton] at hx
        subst hx
        exact hgw
      · intro ch2 h2
        rcases List.mem_append.mp h2 with h2 | h2
        · exact hch ch2 h2
        · simp only [List.mem_singleton] at h2
          subst h2
          exact exists_nonspace_joinSpace current hc hcond.2
    · rw [if_neg hcond] at hmem
      refine ih (current ++ [w]) chunks hwr ?_ hch ch hmem
      intro x hx
      rcases List.mem_append.mp hx with hx | hx
      · exact hc x hx
      · simp only [List.mem_singleton] at hx
        subst hx
        exact hgw

lemma buildChunks_exists_nonspace (maxChars : ℕ) : ∀ (sents : List (List Char)),
    ∀ ch ∈ buildChunks maxChars sents, ∃ c ∈ ch, pyIsSpace c = false := by
  intro sents
  induction sents with
  | nil => intro ch h; simp [buildChunks] at h
  | cons s rest ih =>
    intro ch hmem
    simp only [buildChunks] at hmem
    by_cases h1 : stripChars s = []
    · rw [if_pos h1] at hmem
      exact ih ch hmem
    · rw [if_neg h1] at hmem
      by_cases h2 : (stripChars s).length ≤ maxChars
      · rw [if_pos h2] at hmem
        rcases List.mem_cons.mp hmem with hmem | hmem
        · subst hmem
          exact exists_nonspace_of_stripChars s h1
        · exact ih ch hmem
      · rw [if_neg h2] at hmem
        rcases List.mem_append.mp hmem with hmem | hmem
        · exact packAux_exists_nonspace maxChars (pyWords (stripChars s)) [] []
            (wordsAux_good (stripChars s) [] (by simp)) (by simp) (by simp) ch hmem
        · exact ih ch hmem

lemma clipsAux_tiling (T : ℚ) (hT : 0 < T) (W : ℕ) (hW : 0 < W) :
    ∀ (segs : List String) (elapsed : ℚ), segs ≠ [] →
    elapsed + T * (((segs.map segWordCount).sum : ℕ) : ℚ) / W ≤ T →
    clipsAux T W segs elapsed ≠ [] ∧
    (∀ c0, (clipsAux T W segs elapsed).head? = some c0 → c0.start = elapsed) ∧
    List.Chain' (fun a b => b.start = a.start + a.duration) (clipsAux T W segs elapsed) ∧
    ((clipsAux T W segs elapsed).map SubtitleClip.duration).sum = T - elapsed ∧
    ∀ c ∈ clipsAux T W segs elapsed, 0 < c.duration := by
  intro segs
  induction segs with
  | nil => intro elapsed h _; exact absurd rfl h
  | cons seg rest ih =>
    intro elapsed _ hsum
    have hwc : 1 ≤ segWordCount seg := le_max_right _ 1
    have hWQ : (0 : ℚ) < (W : ℚ) := by exact_mod_cast hW
    have hdpos : 0 < T * ((segWordCount seg : ℕ) : ℚ) / W := by
      apply div_pos _ hWQ
      apply mul_pos hT
      exact_mod_cast Nat.lt_of_lt_of_le Nat.zero_lt_one hwc
    cases rest with
    | nil =>
      have hsum' : elapsed + T * ((segWordCount seg : ℕ) : ℚ) / W ≤ T := by
        simpa using hsum
      have hrem : 0 < T - elapsed := by linarith
      have hstep : clipsAux T W [seg] elapsed =
          [{ text := seg, start := elapsed, duration := T - elapsed }] := by
        simp only [clipsAux, if_pos rfl, if_pos hrem, if_true]
        rw [if_neg (not_le.mpr hrem)]
      rw [hstep]
      refine ⟨by simp, ?_, by simp, by simp, ?_⟩
      · intro c0 h0
        simp only [List.head?_cons, Option.some.injEq] at h0
        rw [← h0]
      · intro c hc
        simp only [List.mem_singleton] at hc
        rw [hc]
        exact hrem
    | cons seg2 rest2 =>
      have hrne : (seg2 :: rest2 : List String) ≠ [] := by simp
      have hsplit :
          elapsed + T * ((segWordCount seg : ℕ) : ℚ) / W
            + T * ((((seg2 :: rest2).map segWordCount).sum : ℕ) : ℚ) / W ≤ T := by
        have hcast :
            ((((seg :: seg2 :: rest2).map segWordCount).sum : ℕ) : ℚ)
              = ((segWordCount seg : ℕ) : ℚ)
                + ((((seg2 :: rest2).map segWordCount).sum : ℕ) : ℚ) := by
          push_cast [List.map_cons, List.sum_cons]
          ring
        rw [hcast, mul_add, add_div] at hsum
        linarith
      obtain ⟨ih1, ih2, ih3, ih4, ih5⟩ :=
        ih (elapsed + T * ((segWordCount seg : ℕ) : ℚ) / W) hrne (by linarith [hsplit])
      have hstep : clipsAux T W (seg :: seg2 :: rest2) elapsed =
          { text := seg, start := elapsed,
            duration := T * ((segWordCount seg : ℕ) : ℚ) / W } ::
            clipsAux T W (seg2 :: rest2)
              (elapsed + T * ((segWordCount seg : ℕ) : ℚ) / W) := by
        simp only [clipsAux]
        rw [if_neg (by simp : ¬(seg2 :: rest2 : List String) = [])]
        rw [if_neg (not_le.mpr hdpos)]
      rw [hstep]
      refine ⟨by simp, ?_, ?_, ?_, ?_⟩
      · intro c0 h0
        simp only [List.head?_cons, Option.some.injEq] at h0
        rw [← h0]
      · rw [List.chain'_cons']
        refine ⟨?_, ih3⟩
        intro b hb
        have hb' := ih2 b hb
        simpa using hb'
      · simp only [List.map_cons, List.sum_cons, ih4]
        ring
      · intro c hc
        rcases List.mem_cons.mp hc with hc | hc
        · rw [hc]
          exact hdpos
        · exact ih5 c hc

lemma build_subtitle_clips_shape (text : String) (T : ℚ) (htext : text ≠ "") :
    ∃ segs : List String, segs ≠ [] ∧
      build_subtitle_clips text T = clipsAux T ((segs.map segWordCount).sum) segs 0 ∧
      0 < (segs.map segWordCount).sum := by
  by_cases hc : buildChunks 60 (sentAux (stripChars text.data) []) = []
  · refine ⟨[String.mk (stripChars text.data)], by simp, ?_, ?_⟩
    · have hseg : split_subtitle_text text = [String.mk (stripChars text.data)] := by
        simp [split_subtitle_text, htext, hc]
      simp only [build_subtitle_clips, hseg]
      rw [if_neg (by simp : ¬([String.mk (stripChars text.data)] : List String) = [])]
      simp only [List.map_cons, List.map_nil, List.sum_cons, List.sum_nil, Nat.add_zero]
      rcases Nat.eq_zero_or_pos (pyWords (String.mk (stripChars text.data)).data).length
        with h | h
      · rw [if_pos h]
        simp [segWordCount, h]
      · rw [if_neg h.ne']
        simp [segWordCount, Nat.max_eq_left h]
    · simp only [List.map_cons, List.map_nil, List.sum_cons, List.sum_nil, Nat.add_zero]
      exact Nat.lt_of_lt_of_le Nat.zero_lt_one (le_max_right _ 1)
  · have hall : ∀ ch ∈ buildChunks 60 (sentAux (stripChars text.data) []),
        0 < (pyWords ch).length := by
      intro ch hch
      obtain ⟨c, h1, h2⟩ := buildChunks_exists_nonspace 60 _ ch hch
      exact List.length_pos.mpr (wordsAux_ne_nil ch [] (Or.inl ⟨c, h1, h2⟩))
    have hseg : split_subtitle_text text =
        (buildChunks 60 (sentAux (stripChars text.data) [])).map String.mk := by
      simp [split_subtitle_text, htext, hc]
    have hraw :
        (((buildChunks 60 (sentAux (stripChars text.data) [])).map String.mk).map
            (fun seg => (pyWords seg.data).length)).sum
          = ((buildChunks 60 (sentAux (stripChars text.data) [])).map
              (fun ch => (pyWords ch).length)).sum := by
      rw [List.map_map]
      rfl
    have hchsum : 0 < ((buildChunks 60 (sentAux (stripChars text.data) [])).map
        (fun ch => (pyWords ch).length)).sum := by
      apply List.sum_pos
      · intro a ha
        obtain ⟨ch, hch, hcha⟩ := List.mem_map.mp ha
        rw [← hcha]
        exact hall ch hch
      · simpa using hc
    have hsegsum :
        (((buildChunks 60 (sentAux (stripChars text.data) [])).map String.mk).map
            segWordCount).sum
          = ((buildChunks 60 (sentAux (stripChars text.data) [])).map
              (fun ch => (pyWords ch).length)).sum := by
      rw [List.map_map]
      congr 1
      apply List.map_congr_left
      intro ch hch
      simp only [Function.comp_apply, segWordCount]
      exact Nat.max_eq_left (hall ch hch)
    refine ⟨(buildChunks 60 (sentAux (stripChars text.data) [])).map String.mk,
      by simpa using hc, ?_, ?_⟩
    · simp only [build_subtitle_clips, hseg]
      rw [if_neg (by simpa using hc)]
      rw [hraw, if_neg hchsum.ne', hsegsum]
    · rw [hsegsum]
      exact hchsum

/-! ## Claim theorems -/

/-- C7, counterexample: the claim says every canonical transition kind,
including `"mix"`, normalizes to itself; but `"mix"` is also an alias-table
key mapped to `"random"`, so `normalize_transition_type` sends the supported
kind `"mix"` to `"random"`, not to itself. -/
theorem normalize_mix_counterexample :
    "mix" ∈ SUPPORTED_TRANSITIONS ∧
    normalize_transition_type (some "mix") = "random" ∧
    normalize_transition_type (some "mix") ≠ "mix" := by
  refine ⟨by decide, by decide, by decide⟩

/-- C7, amended: `normalize_transition_type` maps every canonical transition
kind other than `"mix"` to itself; it maps `"mix"` to `"random"` (the alias
table takes precedence over the canonical set); and it maps every string
whose lower-casing is neither canonical nor an alias-table key to
`"none"`. -/
theorem alias_normalization_amended :
    (∀ s ∈ SUPPORTED_TRANSITIONS, s ≠ "mix" → normalize_transition_type (some s) = s) ∧
    normalize_transition_type (some "mix") = "random" ∧
    (∀ s : String, pyLower s ∉ SUPPORTED_TRANSITIONS →
      TRANSITION_ALIASES.lookup (pyLower s) = none →
      normalize_transition_type (some s) = "none") := by
  refine ⟨by decide, by decide, ?_⟩
  intro s hsup hlook
  by_cases hs : s = ""
  · simp [normalize_transition_type, hs]
  · simp only [normalize_transition_type, if_neg hs, hlook, Option.getD_none]
    rw [if_neg hsup]

theorem alias_normalization_amended_witness :
    ("crossfade" ∈ SUPPORTED_TRANSITIONS ∧ "crossfade" ≠ "mix" ∧
      normalize_transition_type (some "crossfade") = "crossfade") ∧
    normalize_transition_type (some "mix") = "random" ∧
    (pyLower "warp" ∉ SUPPORTED_TRANSITIONS ∧
      TRANSITION_ALIASES.lookup (pyLower "warp") = none ∧
      normalize_transition_type (some "warp") = "none") :=
  ⟨⟨by decide, by decide,
      alias_normalization_amended.1 "crossfade" (by decide) (by decide)⟩,
    alias_normalization_amended.2.1,
    ⟨by decide, by decide,
      alias_normalization_amended.2.2 "warp" (by decide) (by decide)⟩⟩

/-- C8, counterexample: the pool the legacy renderer draws random
transitions from (`RANDOM_TRANSITION_POOL` filtered to supported kinds)
has 16 members, not 13, and it contains both `"crossfade"` and
`"fade_black"` (only `"none"` is excluded). -/
theorem random_pool_counterexample :
    random_transition_pool.length = 16 ∧
    random_transition_pool.length ≠ 13 ∧
    "crossfade" ∈ random_transition_pool ∧
    "fade_black" ∈ random_transition_pool := by
  refine ⟨by decide, by decide, by decide, by decide⟩

/-- C8, amended: when the (normalized) transition effect is `"random"` (or
the unreachable pre-normalization `"mix"`), the legacy renderer draws one
transition per scene boundary — boundary `i` consumes its own oracle draw
`pick i` — from the 16-member pool `random_transition_pool`, which excludes
only `"none"` and includes `"crossfade"` and `"fade_black"`. -/
theorem random_transition_amended (pick : ℕ → ℕ) (n i : ℕ) (h : i < n - 1) :
    (legacyBoundaryTransitions "random" pick n).get? i =
      random_transition_pool.get? (pick i % random_transition_pool.length) ∧
    (legacyBoundaryTransitions "mix" pick n).get? i =
      random_transition_pool.get? (pick i % random_transition_pool.length) ∧
    random_transition_pool.length = 16 ∧
    "none" ∉ random_transition_pool ∧
    "crossfade" ∈ random_transition_pool ∧
    "fade_black" ∈ random_transition_pool := by
  have hlen : 0 < random_transition_pool.length := by decide
  have hmod : pick i % random_transition_pool.length < random_transition_pool.length :=
    Nat.mod_lt _ hlen
  have key : ∀ eff : String, eff = "random" ∨ eff = "mix" →
      selectBoundaryTransition eff (pick i) =
        random_transition_pool.get ⟨pick i % random_transition_pool.length, hmod⟩ := by
    intro eff heff
    simp only [selectBoundaryTransition, if_pos heff]
    rw [List.get?_eq_get hmod]
  refine ⟨?_, ?_, by decide, by decide, by decide, by decide⟩
  · simp only [legacyBoundaryTransitions]
    rw [List.get?_map, List.get?_range h, Option.map_some']
    rw [key "random" (Or.inl rfl), List.get?_eq_get hmod]
  · simp only [legacyBoundaryTransitions]
    rw [List.get?_map, List.get?_range h, Option.map_some']
    rw [key "mix" (Or.inr rfl), List.get?_eq_get hmod]

theorem random_transition_amended_witness :
    (0 < 2 - 1) ∧
    ((legacyBoundaryTransitions "random" (fun j => j) 2).get? 0 =
        random_transition_pool.get? (0 % random_transition_pool.length) ∧
      (legacyBoundaryTransitions "mix" (fun j => j) 2).get? 0 =
        random_transition_pool.get? (0 % random_transition_pool.length) ∧
      random_transition_pool.length = 16 ∧
      "none" ∉ random_transition_pool ∧
      "crossfade" ∈ random_transition_pool ∧
      "fade_black" ∈ random_transition_pool) :=
  ⟨by norm_num, random_transition_amended (fun j => j) 2 0 (by norm_num)⟩

/-- C4, code bug: `render_scene_clip` encodes the scene clip with the
hardcoded `write_videofile` settings `preset='veryfast'`, `bitrate='4000k'`,
for every `RenderingPreset` — in particular the `"quality"` preset's
`"medium"`/CRF 20 parameters are ignored, contradicting the spec's
requirement that the scene-clip encode preset come from the overall
`RenderingPreset`. -/
theorem scene_clip_preset_hardcoded :
    (sceneClipWriteArgs PRESET_QUALITY true).speedPreset = "veryfast" ∧
    (sceneClipWriteArgs PRESET_QUALITY true).bitrate = some "4000k" ∧
    PRESET_QUALITY.speedPreset = "medium" ∧
    (sceneClipWriteArgs PRESET_QUALITY true).speedPreset ≠ PRESET_QUALITY.speedPreset ∧
    (∀ (p q : RenderingPreset) (a : Bool), sceneClipWriteArgs p a = sceneClipWriteArgs q a) :=
  ⟨rfl, rfl, rfl, by decide, fun _ _ _ => rfl⟩

/-- C5, code bug: the post-processing command of `render_video_optimized`
always receives a non-empty filter list (`[0:v]copy[v]`, `[0:a]copy[a]` when
music/overlay are absent), so with no background music and no overlay it
still invokes the `libx264` and `aac` encoders through `-filter_complex`;
the `-c copy` stream-copy branch is unreachable. -/
theorem postprocess_reencode_no_music_no_overlay :
    (∀ (tmp fin : String) (w h fps : ℕ) (preset : RenderingPreset),
        "libx264" ∈ postprocessCmd tmp fin none none w h fps preset ∧
        "-filter_complex" ∈ postprocessCmd tmp fin none none w h fps preset) ∧
    "aac" ∈ postprocessCmd "uploads/video_1_concat_temp.mp4" "uploads/video_1_final.mp4"
        none none 1080 1920 30 PRESET_FAST ∧
    "-c" ∉ postprocessCmd "uploads/video_1_concat_temp.mp4" "uploads/video_1_final.mp4"
        none none 1080 1920 30 PRESET_FAST := by
  refine ⟨?_, by decide, by decide⟩
  intro tmp fin w h fps preset
  constructor <;> simp [postprocessCmd]

/-- C9, counterexample: the duration returned to the caller is
`int(sum(scene_durations))`; for scene durations `[3.5, 3.5, 3.5]` the sum
is `10.5` but the returned value is `10`, off by `0.5 > 0.1`. -/
theorem optimized_duration_counterexample :
    optimizedTotalDuration [7/2, 7/2, 7/2] = 10 ∧
    ¬(|((optimizedTotalDuration [7/2, 7/2, 7/2] : ℤ) : ℚ) -
        ([7/2, 7/2, 7/2] : List ℚ).sum| ≤ 1/10) := by
  have hsum : ([7/2, 7/2, 7/2] : List ℚ).sum = 21/2 := by norm_num
  have h10 : optimizedTotalDuration [7/2, 7/2, 7/2] = 10 := by
    rw [optimizedTotalDuration, pyInt, hsum, if_pos (by norm_num : (0:ℚ) ≤ 21/2)]
    rw [Int.floor_eq_iff]
    constructor <;> norm_num
  refine ⟨h10, ?_⟩
  rw [h10, hsum]
  rw [show ((10:ℤ):ℚ) - 21/2 = -(1/2) by norm_num, abs_neg,
    abs_of_pos (by norm_num : (0:ℚ) < 1/2)]
  norm_num

/-- C9, amended: the integer duration returned by `render_video_optimized`
is the truncation of the sum of the scene durations, so for a nonnegative
sum it lies within `(sum - 1, sum]` — within one second of the sum, not
within 0.1 seconds. -/
theorem optimized_duration_floor (durs : List ℚ) (h : 0 ≤ durs.sum) :
    ((optimizedTotalDuration durs : ℤ) : ℚ) ≤ durs.sum ∧
    durs.sum - 1 < ((optimizedTotalDuration durs : ℤ) : ℚ) := by
  have heq : optimizedTotalDuration durs = ⌊durs.sum⌋ := by
    rw [optimizedTotalDuration, pyInt, if_pos h]
  rw [heq]
  exact ⟨Int.floor_le _, Int.sub_one_lt_floor _⟩

theorem optimized_duration_floor_witness :
    (0 ≤ ([7/2, 7/2, 7/2] : List ℚ).sum) ∧
    ((optimizedTotalDuration [7/2, 7/2, 7/2] : ℤ) : ℚ) ≤ ([7/2, 7/2, 7/2] : List ℚ).sum ∧
    ([7/2, 7/2, 7/2] : List ℚ).sum - 1 <
      ((optimizedTotalDuration [7/2, 7/2, 7/2] : ℤ) : ℚ) :=
  ⟨by norm_num, optimized_duration_floor [7/2, 7/2, 7/2] (by norm_num)⟩

/-- C10 (confirmed): when thumbnail generation fails after the final video
was written, `render_video_optimized` still returns normally: the thumbnail
URL is `None` while the video URL, the integer duration and the file size
are exactly those of the successful render. -/
theorem thumbnail_failure_nonfatal (videoId : ℕ) (durs : List ℚ) (size : ℕ) :
    (optimizedRenderOutput videoId false durs size).2.1 = none ∧
    (optimizedRenderOutput videoId false durs size).1 =
      (optimizedRenderOutput videoId true durs size).1 ∧
    (optimizedRenderOutput videoId false durs size).2.2.1 = optimizedTotalDuration durs ∧
    (optimizedRenderOutput videoId false durs size).2.2.2 = size :=
  ⟨rfl, rfl, rfl, rfl⟩

/-- C1 (confirmed): duration authority in `render_scene_clip`.  When the
scene's `audio_url` names an existing, loadable audio file of duration `D`,
the returned clip duration is `D`, overriding the declared duration; when the
audio file is missing or unloadable (or there is no audio URL), the declared
duration (default `3.0`) is kept. -/
theorem duration_authority :
    (∀ (scene : Scene) (idx vid : ℕ) (fs : FS) (u : String) (D : ℚ) (p : String) (d : ℚ),
        scene.audioUrl = some u → u ≠ "" →
        fs.pathExists (replaceUploads u) = true →
        fs.audioDuration (replaceUploads u) = some D →
        render_scene_clip scene idx vid fs = .ok (p, d) → d = D) ∧
    (∀ (scene : Scene) (idx vid : ℕ) (fs : FS) (p : String) (d : ℚ),
        (∀ u, scene.audioUrl = some u → u ≠ "" →
          fs.pathExists (replaceUploads u) = false ∨
            fs.audioDuration (replaceUploads u) = none) →
        render_scene_clip scene idx vid fs = .ok (p, d) →
        d = scene.duration.getD 3) := by
  constructor
  · intro scene idx vid fs u D p d hau hu hex hld hok
    rcases himg : scene.imageUrl with _ | iu
    · simp [render_scene_clip, himg] at hok
    · simp only [render_scene_clip, himg, hau] at hok
      by_cases hiu : iu = ""
      · rw [if_pos hiu] at hok
        exact absurd hok (by simp)
      · rw [if_neg hiu] at hok
        by_cases hip : fs.pathExists (replaceUploads iu) = false
        · rw [if_pos hip] at hok
          exact absurd hok (by simp)
        · rw [if_neg hip, if_neg hu, hex, if_pos rfl, hld] at hok
          simp only [Except.ok.injEq, Prod.mk.injEq] at hok
          exact hok.2.symm
  · intro scene idx vid fs p d hbad hok
    rcases himg : scene.imageUrl with _ | iu
    · simp [render_scene_clip, himg] at hok
    · simp only [render_scene_clip, himg] at hok
      by_cases hiu : iu = ""
      · rw [if_pos hiu] at hok
        exact absurd hok (by simp)
      · rw [if_neg hiu] at hok
        by_cases hip : fs.pathExists (replaceUploads iu) = false
        · rw [if_pos hip] at hok
          exact absurd hok (by simp)
        · rw [if_neg hip] at hok
          rcases hau : scene.audioUrl with _ | u
          · rw [hau] at hok
            simp only [Except.ok.injEq, Prod.mk.injEq] at hok
            exact hok.2.symm
          · rw [hau] at hok
            dsimp only at hok
            by_cases hu : u = ""
            · rw [if_pos hu] at hok
              simp only [Except.ok.injEq, Prod.mk.injEq] at hok
              exact hok.2.symm
            · rw [if_neg hu] at hok
              rcases hbad u hau hu with hmiss | hload
              · rw [hmiss] at hok
                simp only [Bool.false_eq_true, if_false] at hok
                simp only [Except.ok.injEq, Prod.mk.injEq] at hok
                exact hok.2.symm
              · by_cases hpe : fs.pathExists (replaceUploads u) = true
                · rw [hpe, if_pos rfl, hload] at hok
                  simp only [Except.ok.injEq, Prod.mk.injEq] at hok
                  exact hok.2.symm
                · rw [eq_false_of_ne_true hpe] at hok
                  simp only [Bool.false_eq_true, if_false] at hok
                  simp only [Except.ok.injEq, Prod.mk.injEq] at hok
                  exact hok.2.symm

theorem duration_authority_witness :
    ((⟨some "/uploads/a.png", some "/uploads/a.mp3", "", some 3⟩ : Scene).audioUrl
        = some "/uploads/a.mp3" ∧
      ("/uploads/a.mp3" : String) ≠ "" ∧
      (⟨fun q => q = "uploads/a.png" || q = "uploads/a.mp3",
          fun q => if q = "uploads/a.mp3" then some 5 else none⟩ : FS).pathExists
        (replaceUploads "/uploads/a.mp3") = true ∧
      (⟨fun q => q = "uploads/a.png" || q = "uploads/a.mp3",
          fun q => if q = "uploads/a.mp3" then some 5 else none⟩ : FS).audioDuration
        (replaceUploads "/uploads/a.mp3") = some 5 ∧
      render_scene_clip ⟨some "/uploads/a.png", some "/uploads/a.mp3", "", some 3⟩ 0 7
          ⟨fun q => q = "uploads/a.png" || q = "uploads/a.mp3",
            fun q => if q = "uploads/a.mp3" then some 5 else none⟩
        = .ok (sceneClipPath 7 0, 5) ∧
      (5 : ℚ) = 5) ∧
    (render_scene_clip ⟨some "/uploads/b.png", some "/uploads/missing.mp3", "", some 3⟩ 0 7
          ⟨fun q => q = "uploads/b.png", fun _ => none⟩
        = .ok (sceneClipPath 7 0, 3) ∧
      (3 : ℚ) = (⟨some "/uploads/b.png", some "/uploads/missing.mp3", "", some 3⟩ :
          Scene).duration.getD 3) := by
  refine ⟨⟨rfl, by decide, by decide, rfl, rfl, ?_⟩, rfl, ?_⟩
  · exact duration_authority.1 ⟨some "/uploads/a.png", some "/uploads/a.mp3", "", some 3⟩
      0 7 ⟨fun q => q = "uploads/a.png" || q = "uploads/a.mp3",
        fun q => if q = "uploads/a.mp3" then some 5 else none⟩
      "/uploads/a.mp3" 5 (sceneClipPath 7 0) 5 rfl (by decide) (by decide) rfl rfl
  · exact (duration_authority.2 ⟨some "/uploads/b.png", some "/uploads/missing.mp3", "", some 3⟩
      0 7 ⟨fun q => q = "uploads/b.png", fun _ => none⟩ (sceneClipPath 7 0) 3
      (by intro u hu hne; cases hu; left; decide) rfl).symm

/-- C2 (confirmed): for every non-empty text and every total duration
`T > 0`, the subtitle clips of `build_subtitle_clips` exactly tile `[0, T]`:
the list is non-empty, the first clip starts at 0, each clip starts where
the previous one ends (hence no two overlap), every duration is positive,
and the durations sum to exactly `T`. -/
theorem subtitle_tiling (text : String) (T : ℚ) (htext : text ≠ "") (hT : 0 < T) :
    build_subtitle_clips text T ≠ [] ∧
    (∀ c0, (build_subtitle_clips text T).head? = some c0 → c0.start = 0) ∧
    List.Chain' (fun a b => b.start = a.start + a.duration) (build_subtitle_clips text T) ∧
    ((build_subtitle_clips text T).map SubtitleClip.duration).sum = T ∧
    ∀ c ∈ build_subtitle_clips text T, 0 < c.duration := by
  obtain ⟨segs, hne, heq, hpos⟩ := build_subtitle_clips_shape text T htext
  have hWQ : (((segs.map segWordCount).sum : ℕ) : ℚ) ≠ 0 := by
    exact_mod_cast hpos.ne'
  have hsum : (0 : ℚ) + T * (((segs.map segWordCount).sum : ℕ) : ℚ) /
      ((segs.map segWordCount).sum : ℕ) ≤ T := by
    rw [zero_add, mul_div_assoc, div_self hWQ, mul_one]
  obtain ⟨h1, h2, h3, h4, h5⟩ := clipsAux_tiling T hT _ hpos segs 0 hne hsum
  rw [heq]
  exact ⟨h1, h2, h3, by rw [h4, sub_zero], h5⟩

theorem subtitle_tiling_witness :
    (("Hello world. Bye now." : String) ≠ "" ∧ (0 : ℚ) < 6) ∧
    (build_subtitle_clips "Hello world. Bye now." 6 ≠ [] ∧
      (∀ c0, (build_subtitle_clips "Hello world. Bye now." 6).head? = some c0 →
        c0.start = 0) ∧
      List.Chain' (fun a b => b.start = a.start + a.duration)
        (build_subtitle_clips "Hello world. Bye now." 6) ∧
      ((build_subtitle_clips "Hello world. Bye now." 6).map SubtitleClip.duration).sum = 6 ∧
      ∀ c ∈ build_subtitle_clips "Hello world. Bye now." 6, 0 < c.duration) :=
  ⟨⟨by decide, by norm_num⟩,
    subtitle_tiling "Hello world. Bye now." 6 (by decide) (by norm_num)⟩

/-- C3 (confirmed): `concatenate_scenes_with_ffmpeg` builds the stream-copy
command (`-c copy`, no encoder) exactly when the normalized transition type
is `"none"`, or is `"crossfade"` with `transition_duration = 0`; in every
other case it builds the manifest concat that re-encodes with the preset's
speed (`-preset`) and quality (`-crf`) parameters.  The preset is one of the
two presets `get_preset` can return, and the hypotheses exclude output
filenames that collide with the flag strings themselves. -/
theorem concat_path_selection (paths : List String) (out t : String) (td : ℚ)
    (preset : RenderingPreset) (hne : paths ≠ [])
    (hp : preset = PRESET_FAST ∨ preset = PRESET_QUALITY)
    (hout : out ∉ (["libx264", "-crf", "-c"] : List String))
    (hcf : pyReplace out ".mp4" "_concat.txt" ∉ (["libx264", "-crf", "-c"] : List String)) :
    ∃ cmd, concatenate_scenes_with_ffmpeg paths out t td preset = .ok cmd ∧
      ((normalize_transition_type (some t) = "none" ∨
          (normalize_transition_type (some t) = "crossfade" ∧ td = 0)) →
        ["-c", "copy"] <:+: cmd ∧ "libx264" ∉ cmd ∧ "-crf" ∉ cmd) ∧
      (¬(normalize_transition_type (some t) = "none" ∨
          (normalize_transition_type (some t) = "crossfade" ∧ td = 0)) →
        "libx264" ∈ cmd ∧ ["-preset", preset.speedPreset] <:+: cmd ∧
          ["-crf", toString preset.crf] <:+: cmd ∧ "-c" ∉ cmd) := by
  have h1 : ¬(("libx264" : String) = out) := fun h => hout (by simp [← h])
  have h2 : ¬(("libx264" : String) = pyReplace out ".mp4" "_concat.txt") :=
    fun h => hcf (by simp [← h])
  have h3 : ¬(("-crf" : String) = out) := fun h => hout (by simp [← h])
  have h4 : ¬(("-crf" : String) = pyReplace out ".mp4" "_concat.txt") :=
    fun h => hcf (by simp [← h])
  have h5 : ¬(("-c" : String) = out) := fun h => hout (by simp [← h])
  have h6 : ¬(("-c" : String) = pyReplace out ".mp4" "_concat.txt") :=
    fun h => hcf (by simp [← h])
  have h7 : ¬(("-c" : String) = toString preset.crf) := by
    rcases hp with rfl | rfl <;> decide
  by_cases hcond : (normalize_transition_type (some t) = "none" ∨
      (normalize_transition_type (some t) = "crossfade" ∧ td = 0))
  · refine ⟨["ffmpeg", "-y", "-f", "concat", "-safe", "0", "-i",
        pyReplace out ".mp4" "_concat.txt", "-c", "copy", out],
      ?_, fun _ => ⟨?_, ?_, ?_⟩, fun hn => absurd hcond hn⟩
    · simp only [concatenate_scenes_with_ffmpeg]
      rw [if_neg hne, if_pos hcond]
    · exact ⟨["ffmpeg", "-y", "-f", "concat", "-safe", "0", "-i",
        pyReplace out ".mp4" "_concat.txt"], [out], rfl⟩
    · simp [h1, h2]
    · simp [h3, h4]
  · refine ⟨["ffmpeg", "-y", "-f", "concat", "-safe", "0", "-i",
        pyReplace out ".mp4" "_concat.txt", "-c:v", "libx264", "-preset",
        preset.speedPreset, "-crf", toString preset.crf, "-c:a", "aac",
        "-b:a", "192k", out],
      ?_, fun hcc => absurd hcc hcond, fun _ => ⟨?_, ?_, ?_, ?_⟩⟩
    · simp only [concatenate_scenes_with_ffmpeg]
      rw [if_neg hne, if_neg hcond]
    · simp
    · exact ⟨["ffmpeg", "-y", "-f", "concat", "-safe", "0", "-i",
        pyReplace out ".mp4" "_concat.txt", "-c:v", "libx264"],
        ["-crf", toString preset.crf, "-c:a", "aac", "-b:a", "192k", out], rfl⟩
    · exact ⟨["ffmpeg", "-y", "-f", "concat", "-safe", "0", "-i",
        pyReplace out ".mp4" "_concat.txt", "-c:v", "libx264", "-preset",
        preset.speedPreset],
        ["-c:a", "aac", "-b:a", "192k", out], rfl⟩
    · have h8 : ¬(("-c" : String) = preset.speedPreset) := by
        rcases hp with rfl | rfl <;> decide
      simp [h2, h5, h6, h7, h8]

theorem concat_path_selection_witness :
    ((["uploads/video_1_scene_1_clip.mp4"] : List String) ≠ [] ∧
      (PRESET_FAST = PRESET_FAST ∨ PRESET_FAST = PRESET_QUALITY) ∧
      ("uploads/video_1_concat_temp.mp4" : String) ∉
        (["libx264", "-crf", "-c"] : List String) ∧
      pyReplace "uploads/video_1_concat_temp.mp4" ".mp4" "_concat.txt" ∉
        (["libx264", "-crf", "-c"] : List String)) ∧
    (∃ cmd, concatenate_scenes_with_ffmpeg ["uploads/video_1_scene_1_clip.mp4"]
        "uploads/video_1_concat_temp.mp4" "none" (1/2) PRESET_FAST = .ok cmd ∧
      ((normalize_transition_type (some "none") = "none" ∨
          (normalize_transition_type (some "none") = "crossfade" ∧ (1/2 : ℚ) = 0)) →
        ["-c", "copy"] <:+: cmd ∧ "libx264" ∉ cmd ∧ "-crf" ∉ cmd) ∧
      (¬(normalize_transition_type (some "none") = "none" ∨
          (normalize_transition_type (some "none") = "crossfade" ∧ (1/2 : ℚ) = 0)) →
        "libx264" ∈ cmd ∧ ["-preset", PRESET_FAST.speedPreset] <:+: cmd ∧
          ["-crf", toString PRESET_FAST.crf] <:+: cmd ∧ "-c" ∉ cmd)) :=
  ⟨⟨by decide, Or.inl rfl, by decide, by decide⟩,
    concat_path_selection ["uploads/video_1_scene_1_clip.mp4"]
      "uploads/video_1_concat_temp.mp4" "none" (1/2) PRESET_FAST
      (by decide) (Or.inl rfl) (by decide) (by decide)⟩

/-- C6, counterexample: the legacy renderer (`render_video`) does not fail
when a scene's image file is missing — it logs and skips the scene.  With a
two-scene list whose first image is absent and second present, the legacy
loop keeps one entry and the render proceeds (no `"No clips generated"`
error), contradicting the claim that both paths fail as a whole and that
scenes are never silently skipped. -/
theorem missing_image_skip_counterexample :
    legacySceneEntry ⟨some "/uploads/missing.png", none, "", none⟩
        ⟨fun q => q = "uploads/b.png", fun _ => none⟩ = none ∧
    (legacySceneEntries
        [⟨some "/uploads/missing.png", none, "", none⟩,
         ⟨some "/uploads/b.png", none, "", none⟩]
        ⟨fun q => q = "uploads/b.png", fun _ => none⟩).length = 1 ∧
    legacyRenderFailsOnScenes
        [⟨some "/uploads/missing.png", none, "", none⟩,
         ⟨some "/uploads/b.png", none, "", none⟩]
        ⟨fun q => q = "uploads/b.png", fun _ => none⟩ = false := by
  refine ⟨by decide, by decide, by decide⟩

lemma stage1Go_error (vid : ℕ) (fs : FS) :
    ∀ (scenes : List Scene) (idx : ℕ) (acc : List (String × ℚ)),
    (∃ i scene, scenes.get? i = some scene ∧
        ∃ u, scene.imageUrl = some u ∧ u ≠ "" ∧
          fs.pathExists (replaceUploads u) = false) →
    ∃ e, stage1Go vid fs scenes idx acc = .error e := by
  intro scenes
  induction scenes with
  | nil =>
    intro idx acc h
    obtain ⟨i, scene, hget, _⟩ := h
    simp at hget
  | cons s rest ih =>
    intro idx acc h
    obtain ⟨i, scene, hget, u, hiu, hu, hex⟩ := h
    cases i with
    | zero =>
      simp only [List.get?_cons_zero, Option.some.injEq] at hget
      subst hget
      have herr : render_scene_clip s idx vid fs =
          .error ("Image file not found: " ++ replaceUploads u) := by
        simp only [render_scene_clip, hiu]
        rw [if_neg hu, if_pos hex]
      exact ⟨"Image file not found: " ++ replaceUploads u, by simp [stage1Go, herr]⟩
    | succ j =>
      simp only [List.get?_cons_succ] at hget
      rcases hr : render_scene_clip s idx vid fs with e | r
      · exact ⟨e, by simp [stage1Go, hr]⟩
      · obtain ⟨e, he⟩ := ih (idx + 1) (r :: acc) ⟨j, scene, hget, u, hiu, hu, hex⟩
        exact ⟨e, by simp [stage1Go, hr, he]⟩

/-- C6, amended: the optimized path does fail as a whole — if any scene's
image file is missing, stage 1 of `render_video_optimized` propagates an
error (its per-scene `except` re-raises) — but the legacy path merely skips
such a scene (`legacySceneEntry` yields no entry), and the legacy render as
a whole fails only when every scene is skipped. -/
theorem missing_image_failure_amended :
    (∀ (scenes : List Scene) (vid : ℕ) (fs : FS) (i : ℕ) (scene : Scene) (u : String),
        scenes.get? i = some scene → scene.imageUrl = some u → u ≠ "" →
        fs.pathExists (replaceUploads u) = false →
        ∃ e, optimizedStage1 scenes vid fs = .error e) ∧
    (∀ (scene : Scene) (fs : FS) (u : String),
        scene.imageUrl = some u → u ≠ "" →
        fs.pathExists (replaceUploads u) = false →
        legacySceneEntry scene fs = none) ∧
    (∀ (scenes : List Scene) (fs : FS),
        legacyRenderFailsOnScenes scenes fs = true ↔ legacySceneEntries scenes fs = []) := by
  refine ⟨?_, ?_, ?_⟩
  · intro scenes vid fs i scene u hget hiu hu hex
    obtain ⟨e, he⟩ := stage1Go_error vid fs scenes 0 [] ⟨i, scene, hget, u, hiu, hu, hex⟩
    exact ⟨e, by simp [optimizedStage1, he]⟩
  · intro scene fs u hiu hu hex
    simp only [legacySceneEntry, hiu]
    rw [if_neg hu, if_pos hex]
  · intro scenes fs
    simp [legacyRenderFailsOnScenes, List.isEmpty_iff]

theorem missing_image_failure_amended_witness :
    (([⟨some "/uploads/missing.png", none, "", none⟩] : List Scene).get? 0 =
        some ⟨some "/uploads/missing.png", none, "", none⟩ ∧
      (⟨some "/uploads/missing.png", none, "", none⟩ : Scene).imageUrl =
        some "/uploads/missing.png" ∧
      ("/uploads/missing.png" : String) ≠ "" ∧
      (⟨fun _ => false, fun _ => none⟩ : FS).pathExists
        (replaceUploads "/uploads/missing.png") = false) ∧
    (∃ e, optimizedStage1 [⟨some "/uploads/missing.png", none, "", none⟩] 1
        ⟨fun _ => false, fun _ => none⟩ = .error e) ∧
    legacySceneEntry ⟨some "/uploads/missing.png", none, "", none⟩
        ⟨fun _ => false, fun _ => none⟩ = none := by
  refine ⟨⟨rfl, rfl, by decide, rfl⟩, ?_, ?_⟩
  · exact missing_image_failure_amended.1 [⟨some "/uploads/missing.png", none, "", none⟩]
      1 ⟨fun _ => false, fun _ => none⟩ 0 ⟨some "/uploads/missing.png", none, "", none⟩
      "/uploads/missing.png" rfl rfl (by decide) rfl
  · exact missing_image_failure_amended.2.1 ⟨some "/uploads/missing.png", none, "", none⟩
      ⟨fun _ => false, fun _ => none⟩ "/uploads/missing.png" rfl (by decide) rfl
